import Mathlib

/-!
# Shallow embedding of the jarvis conversation core

This file embeds, in Lean 4, the conversation upsert / embedding pipeline /
vector retrieval core of the jarvis backend:

* `ConversationService.upsertConversations` and `searchConversations`
  (domain/services/conversation.service),
* `ConversationRepository.findByClaudeId` / `create` / `update` /
  `findByIds` / `findByDateRange` (domain/repositories/conversation.repository),
* `MessageRepository.upsertMessages` / `findByConversationId` /
  `findByConversationIds` (domain/repositories/messages.repository),
* `EmbeddingsRepository.upsert` / `compareEmbeddings`
  (domain/repositories/embeddings.repository),
* `EmbeddingQueue` and `EmbeddingService.processNextConversation`
  (domain/services/embedding.service).

Database tables are embedded as Lean lists of rows; a SQL `SELECT` with no
`ORDER BY` returns rows in table order, and an `ORDER BY` is embedded as a
stable sort (`List.insertionSort`) — the spec assigns tie-breaking to the
store layer, so any deterministic stable order is a faithful instance.
UUID generation (`defaultRandom`) is embedded as a fresh-id counter
`nextId`; `new Date()` timestamps are a `now : Int` parameter; the remote
embedding provider is an uninterpreted parameter `embed : String → List Int`;
the pgvector cosine-distance operator `<=>` against a fixed query vector is
an uninterpreted parameter `dist : List Int → Int`.
-/

namespace Jarvis

/-- Row of the `conversations` table (infrastructure/db/schema). -/
structure ConversationRow where
  id : Nat
  claudeConversationId : String
  title : String
  created_at : Int
  updated_at : Int
  messageCount : Nat
deriving Repr, DecidableEq

/-- Row of the `messages` table: `(conversationId, sequence_number)` is the
unique key used for upserts. -/
structure MessageRow where
  conversationId : Nat
  sequence_number : Nat
  role : String
  content : String
  created_at : Int
deriving Repr, DecidableEq

/-- Row of the `conversations_embeddings` table: `conversationId` is unique. -/
structure EmbeddingRow where
  conversationId : Nat
  embedding : List Int
  created_at : Int
deriving Repr, DecidableEq

/-- Errors surfaced by the core.  `databaseError` embeds the repositories'
`DatabaseError` wrapper; `runtimeError` embeds a plain thrown `Error`. -/
inductive CoreError where
  | databaseError (message : String)
  | runtimeError (message : String)
deriving Repr, DecidableEq

/-- The in-memory `EmbeddingQueue` singleton: an ordered list of conversation
ids plus the `isProcessing` claim-in-flight flag. -/
structure EmbeddingQueue where
  queue : List Nat
  isProcessing : Bool
deriving Repr, DecidableEq

/-- `EmbeddingQueue.add`: push the id onto the tail, no deduplication. -/
def EmbeddingQueue.add (q : EmbeddingQueue) (conversationId : Nat) : EmbeddingQueue :=
  { q with queue := q.queue ++ [conversationId] }

/-- `EmbeddingQueue.processNext`: if a claim is in flight or the queue is
empty, return nothing; otherwise shift the head off the queue.  The source
sets `isProcessing` to `true` and back to `false` around the synchronous
shift, so the post-state flag is `false`. -/
def EmbeddingQueue.processNext (q : EmbeddingQueue) : Option Nat × EmbeddingQueue :=
  if q.isProcessing ∨ q.queue = [] then (none, q)
  else (q.queue.head?, { q with queue := q.queue.tail, isProcessing := false })

/-- `EmbeddingQueue.isEmpty`. -/
def EmbeddingQueue.isEmptyQ (q : EmbeddingQueue) : Bool :=
  q.queue.isEmpty

/-- `EmbeddingQueue.getQueueLength`. -/
def EmbeddingQueue.getQueueLength (q : EmbeddingQueue) : Nat :=
  q.queue.length

/-- Whole persistent + in-process state touched by the core: the three
tables, the singleton queue, and the fresh-id counter for generated
conversation ids. -/
structure Store where
  conversations : List ConversationRow
  messagesTable : List MessageRow
  embeddings : List EmbeddingRow
  embeddingQueue : EmbeddingQueue
  nextId : Nat
deriving Repr, DecidableEq

/-- `ConversationRepository.findByClaudeId`: `SELECT ... WHERE
claude_conversation_id = $1 LIMIT 1` — first matching row in table order. -/
def findByClaudeId (claudeConversationId : String) (table : List ConversationRow) :
    Option ConversationRow :=
  table.find? (fun c => c.claudeConversationId == claudeConversationId)

/-- `ConversationRepository.findByIds`: `SELECT ... WHERE id IN (...)` with no
`ORDER BY` — rows come back in table order, not in the order of `ids`. -/
def findByIds (ids : List Nat) (table : List ConversationRow) : List ConversationRow :=
  table.filter (fun c => ids.contains c.id)

/-- `ConversationRepository.findByDateRange`: throws when neither bound is
given (the thrown `Error` is caught and re-wrapped as `DatabaseError` by the
repository's catch block); otherwise pushes a `gte` condition for `from` and
an `lte` condition for `to` and filters with their conjunction. -/
def findByDateRange (fromDate toDate : Option Int) (table : List ConversationRow) :
    Except CoreError (List ConversationRow) :=
  if fromDate = none ∧ toDate = none then
    .error (.databaseError "Failed to find conversations by date")
  else
    let conditions : List (ConversationRow → Bool) :=
      (match fromDate with
       | some f => [fun c => f ≤ c.created_at]
       | none => []) ++
      (match toDate with
       | some t => [fun c => c.created_at ≤ t]
       | none => [])
    .ok (table.filter (fun c => conditions.all (fun cond => cond c)))

/-- `ConversationRepository.update` as called by `upsertConversations`:
set `title` and `messageCount` and bump `updated_at` on the row with the
given id. -/
def updateConversation (id : Nat) (title : String) (messageCount : Nat) (now : Int)
    (table : List ConversationRow) : List ConversationRow :=
  table.map (fun c =>
    if c.id == id then { c with title := title, messageCount := messageCount, updated_at := now }
    else c)

/-- Conflict key of the `messages` table: the
`(conversationId, sequence_number)` unique constraint targeted by
`onConflictDoUpdate`. -/
def sameKey (a b : MessageRow) : Bool :=
  a.conversationId == b.conversationId && a.sequence_number == b.sequence_number

/-- One iteration of `MessageRepository.upsertMessages`: `INSERT ... ON
CONFLICT (conversation_id, sequence_number) DO UPDATE SET content,
created_at`.  On conflict only `content` and `created_at` are overwritten;
otherwise the row is inserted. -/
def insertMessageRow (m : MessageRow) (table : List MessageRow) : List MessageRow :=
  if table.any (fun t => sameKey t m) then
    table.map (fun t =>
      if sameKey t m then { t with content := m.content, created_at := m.created_at } else t)
  else
    table ++ [m]

/-- `MessageRepository.upsertMessages`: loop the single-row upsert over the
batch in order. -/
def upsertMessages (messageData : List MessageRow) (table : List MessageRow) :
    List MessageRow :=
  messageData.foldl (fun acc m => insertMessageRow m acc) table

/-- `MessageRepository.findByConversationId`: filter by conversation id,
`ORDER BY sequence_number`. -/
def findByConversationId (conversationId : Nat) (table : List MessageRow) :
    List MessageRow :=
  (table.filter (fun m => m.conversationId == conversationId)).insertionSort
    (fun a b => a.sequence_number ≤ b.sequence_number)

/-- `MessageRepository.findByConversationIds`: filter by id membership,
`ORDER BY sequence_number`. -/
def findByConversationIds (conversationIds : List Nat) (table : List MessageRow) :
    List MessageRow :=
  (table.filter (fun m => conversationIds.contains m.conversationId)).insertionSort
    (fun a b => a.sequence_number ≤ b.sequence_number)

/-- `EmbeddingsRepository.upsert`: `INSERT ... ON CONFLICT (conversation_id)
DO UPDATE SET embedding, created_at`. -/
def upsertEmbedding (conversationId : Nat) (embedding : List Int) (now : Int)
    (table : List EmbeddingRow) : List EmbeddingRow :=
  if table.any (fun e => e.conversationId == conversationId) then
    table.map (fun e =>
      if e.conversationId == conversationId then
        { e with embedding := embedding, created_at := now }
      else e)
  else
    table ++ [{ conversationId := conversationId, embedding := embedding, created_at := now }]

/-- `EmbeddingsRepository.compareEmbeddings`: `SELECT * FROM
conversations_embeddings ORDER BY embedding <=> $query LIMIT 5`; throws when
the result set is empty (wrapped as `DatabaseError` by the catch block).
`dist v` is the store's cosine distance of stored vector `v` from the fixed
query vector. -/
def compareEmbeddings (dist : List Int → Int) (table : List EmbeddingRow) :
    Except CoreError (List EmbeddingRow) :=
  let results :=
    (table.insertionSort (fun a b => dist a.embedding ≤ dist b.embedding)).take 5
  if results.length = 0 then
    .error (.databaseError "Failed to compare embeddings")
  else
    .ok results

/-- One message of an ingest payload (`IngestRequest` conversation message). -/
structure PayloadMessage where
  role : String
  content : String
  timestamp : Int
deriving Repr, DecidableEq

/-- One conversation of an ingest payload: external stable id, title,
creation timestamp, ordered message array. -/
structure ConversationPayload where
  id : String
  title : String
  created_at : Int
  messages : List PayloadMessage
deriving Repr, DecidableEq

/-- Ingest metrics returned by `upsertConversations`. -/
structure UpsertMetrics where
  processed : Nat
  created : Nat
  updated : Nat
deriving Repr, DecidableEq

/-- The `conv.messages.map((msg, index) => ...)` row construction: message at
array position `i` becomes a row with `sequence_number` `k + i` (the service
calls it with `k = 0`), carrying the payload's role, content and timestamp. -/
def messageData (conversationId : Nat) : Nat → List PayloadMessage → List MessageRow
  | _, [] => []
  | k, msg :: rest =>
    { conversationId := conversationId
      sequence_number := k
      role := msg.role
      content := msg.content
      created_at := msg.timestamp } :: messageData conversationId (k + 1) rest

/-- Loop body of `ConversationService.upsertConversations` for one payload:
look up by external id; if found with unchanged message count, `continue`
(no-op); if found with changed count, update the conversation, upsert the
rows, enqueue; if absent, create the conversation (fresh internal id), insert
the rows, enqueue. -/
def upsertOne (now : Int) (s : Store) (conv : ConversationPayload) : Store × UpsertMetrics :=
  match findByClaudeId conv.id s.conversations with
  | some existingConversation =>
    if conv.messages.length = existingConversation.messageCount then
      (s, { processed := 0, created := 0, updated := 0 })
    else
      let convTable := updateConversation existingConversation.id conv.title
        conv.messages.length now s.conversations
      let msgTable := upsertMessages (messageData existingConversation.id 0 conv.messages)
        s.messagesTable
      ({ s with
          conversations := convTable
          messagesTable := msgTable
          embeddingQueue := s.embeddingQueue.add existingConversation.id },
       { processed := 1, created := 0, updated := 1 })
  | none =>
    let newConv : ConversationRow :=
      { id := s.nextId
        claudeConversationId := conv.id
        title := conv.title
        created_at := conv.created_at
        updated_at := now
        messageCount := conv.messages.length }
    let msgTable := upsertMessages (messageData s.nextId 0 conv.messages) s.messagesTable
    ({ s with
        conversations := s.conversations ++ [newConv]
        messagesTable := msgTable
        embeddingQueue := s.embeddingQueue.add s.nextId
        nextId := s.nextId + 1 },
     { processed := 1, created := 1, updated := 0 })

/-- `ConversationService.upsertConversations`: fold the per-payload step over
the batch in array order, accumulating the metrics. -/
def upsertConversations (now : Int) (s : Store) (convs : List ConversationPayload) :
    Store × UpsertMetrics :=
  convs.foldl
    (fun acc conv =>
      let step := upsertOne now acc.1 conv
      (step.1,
       { processed := acc.2.processed + step.2.processed
         created := acc.2.created + step.2.created
         updated := acc.2.updated + step.2.updated }))
    (s, { processed := 0, created := 0, updated := 0 })

/-- Result shape `ConversationWithMessages`. -/
structure ConversationWithMessages where
  id : Nat
  title : String
  created_at : Int
  updated_at : Int
  messageCount : Nat
  messages : List MessageRow
deriving Repr, DecidableEq

/-- The client-side join both retrieval paths perform: map over the metadata
rows *in the order the metadata fetch returned them* and attach each
conversation's messages. -/
def hydrate (convMetaData : List ConversationRow) (msgs : List MessageRow) :
    List ConversationWithMessages :=
  convMetaData.map (fun conv =>
    { id := conv.id
      title := conv.title
      created_at := conv.created_at
      updated_at := conv.updated_at
      messageCount := conv.messageCount
      messages := msgs.filter (fun m => m.conversationId == conv.id) })

/-- `ConversationService.searchConversations`: embed the query (folded into
`dist`), rank via `compareEmbeddings`, fetch metadata and messages for the
ranked ids, and map over the metadata fetch result to build the response. -/
def searchConversations (dist : List Int → Int) (s : Store) :
    Except CoreError (List ConversationWithMessages) := do
  let convEmbeddings ← compareEmbeddings dist s.embeddings
  let ids := convEmbeddings.map (fun conv => conv.conversationId)
  let convMetaData := findByIds ids s.conversations
  let msgs := findByConversationIds ids s.messagesTable
  return hydrate convMetaData msgs

/-- `ConversationService.getConversationsByDateRange`: delegate to the
repository's date-range query, then hydrate. -/
def getConversationsByDateRange (fromDate toDate : Option Int) (s : Store) :
    Except CoreError (List ConversationWithMessages) := do
  let convs ← findByDateRange fromDate toDate s.conversations
  let ids := convs.map (fun conv => conv.id)
  let msgs := findByConversationIds ids s.messagesTable
  return hydrate convs msgs

/-- Message concatenation of `EmbeddingService.generateEmbeddings`:
`"{role}: {content}"` per message, joined by newlines. -/
def combinedText (msgs : List MessageRow) : String :=
  String.intercalate "\n" (msgs.map (fun msg => msg.role ++ ": " ++ msg.content))

/-- `EmbeddingService.processNextConversation`: claim the next id from the
queue (returning silently when there is none); fetch the conversation's
messages; throw when there are none; otherwise embed the concatenated text
and upsert the vector.  The second component is the error, if one is
thrown. -/
def processNextConversation (embed : String → List Int) (now : Int) (s : Store) :
    Store × Option CoreError :=
  match EmbeddingQueue.processNext s.embeddingQueue with
  | (none, q) => ({ s with embeddingQueue := q }, none)
  | (some conversationId, q) =>
    let s1 := { s with embeddingQueue := q }
    let msgs := findByConversationId conversationId s1.messagesTable
    if msgs.length = 0 then
      (s1, some (.runtimeError ("No messages found for conversation ID: " ++ toString conversationId)))
    else
      ({ s1 with embeddings := upsertEmbedding conversationId (embed (combinedText msgs)) now s1.embeddings },
       none)

/-- Drive `processNext` until it yields nothing, collecting the returned ids
(fuel-indexed helper). -/
def EmbeddingQueue.drainAux : Nat → EmbeddingQueue → List Nat
  | 0, _ => []
  | fuel + 1, q =>
    match EmbeddingQueue.processNext q with
    | (none, _) => []
    | (some x, q2) => x :: EmbeddingQueue.drainAux fuel q2

/-- Drive `processNext` until it yields nothing, collecting the returned ids. -/
def EmbeddingQueue.drain (q : EmbeddingQueue) : List Nat :=
  EmbeddingQueue.drainAux q.queue.length q

/-! Concrete fixtures used by counterexample and witness theorems. -/

/-- A store-level distance against a fixed query vector: the stored vector's
first coordinate.  Any `dist` exhibits the hydration-order behaviour. -/
def exDist : List Int → Int := fun v => v.headD 0

/-- Two conversations in table order `[1, 2]` whose embeddings the store
ranks in the opposite order `[2, 1]` (distance 3 beats distance 5). -/
def exStoreSearch : Store :=
  { conversations := [⟨1, "extA", "A", 0, 0, 1⟩, ⟨2, "extB", "B", 0, 0, 1⟩]
    messagesTable := []
    embeddings := [⟨1, [5], 0⟩, ⟨2, [3], 0⟩]
    embeddingQueue := ⟨[], false⟩
    nextId := 3 }

/-- The empty store. -/
def emptyStore : Store :=
  { conversations := [], messagesTable := [], embeddings := []
    embeddingQueue := ⟨[], false⟩, nextId := 0 }

/-- Payload: conversation `c1` with two messages. -/
def payloadC1v2 : ConversationPayload :=
  ⟨"c1", "T", 0, [⟨"user", "hi", 0⟩, ⟨"assistant", "hello", 1⟩]⟩

/-- Payload: conversation `c1` re-ingested with a single message. -/
def payloadC1v1 : ConversationPayload :=
  ⟨"c1", "T", 0, [⟨"user", "bye", 2⟩]⟩

/-- A store already holding conversation `c1` with two stored messages and a
cached `messageCount` of 2. -/
def exStoreC1Ingested : Store :=
  { conversations := [⟨0, "c1", "T", 0, 0, 2⟩]
    messagesTable := [⟨0, 0, "user", "hi", 0⟩, ⟨0, 1, "assistant", "hello", 1⟩]
    embeddings := []
    embeddingQueue := ⟨[0], false⟩
    nextId := 1 }

/-- A store whose queue holds conversation 0, which has one stored message. -/
def exStoreWorker : Store :=
  { conversations := [⟨0, "c1", "T", 0, 0, 1⟩]
    messagesTable := [⟨0, 0, "user", "hi", 0⟩]
    embeddings := []
    embeddingQueue := ⟨[0], false⟩
    nextId := 1 }

/-- A store whose queue holds conversation 5, which has no stored messages. -/
def exStoreWorkerEmptyConv : Store :=
  { conversations := []
    messagesTable := []
    embeddings := []
    embeddingQueue := ⟨[5], false⟩
    nextId := 6 }

/-- A store with two conversations created at timestamps 1 and 5. -/
def exStoreDates : Store :=
  { conversations := [⟨0, "d1", "D1", 1, 0, 0⟩, ⟨1, "d2", "D2", 5, 0, 0⟩]
    messagesTable := []
    embeddings := []
    embeddingQueue := ⟨[], false⟩
    nextId := 2 }

/-- Seven conversations with one embedding row each, for the fixed-K bound. -/
def exStoreSeven : Store :=
  { conversations :=
      [⟨1, "e1", "E1", 0, 0, 1⟩, ⟨2, "e2", "E2", 0, 0, 1⟩, ⟨3, "e3", "E3", 0, 0, 1⟩,
       ⟨4, "e4", "E4", 0, 0, 1⟩, ⟨5, "e5", "E5", 0, 0, 1⟩, ⟨6, "e6", "E6", 0, 0, 1⟩,
       ⟨7, "e7", "E7", 0, 0, 1⟩]
    messagesTable := []
    embeddings :=
      [⟨1, [1], 0⟩, ⟨2, [2], 0⟩, ⟨3, [3], 0⟩, ⟨4, [4], 0⟩, ⟨5, [5], 0⟩, ⟨6, [6], 0⟩,
       ⟨7, [7], 0⟩]
    embeddingQueue := ⟨[], false⟩
    nextId := 8 }

lemma EmbeddingQueue.processNext_cons (x : Nat) (rest : List Nat) :
    EmbeddingQueue.processNext ⟨x :: rest, false⟩ = (some x, ⟨rest, false⟩) := by
  simp [EmbeddingQueue.processNext]

lemma EmbeddingQueue.drain_queue (l : List Nat) :
    EmbeddingQueue.drain ⟨l, false⟩ = l := by
  induction l with
  | nil => rfl
  | cons x rest ih =>
    show EmbeddingQueue.drainAux (rest.length + 1) ⟨x :: rest, false⟩ = x :: rest
    rw [EmbeddingQueue.drainAux, EmbeddingQueue.processNext_cons]
    exact congrArg (x :: ·) ih

/-- C8: the embedding work queue is FIFO.  `add` appends to the tail without
deduplication (the count of an id strictly increases on every `add`);
`processNext` pops the head, so draining returns the ids in exactly their
insertion order; and it returns empty when a claim is in flight or the queue
is empty. -/
theorem embeddingQueue_fifo :
    (∀ (q : EmbeddingQueue) (i : Nat),
        (q.add i).queue = q.queue ++ [i] ∧ (q.add i).queue.count i = q.queue.count i + 1)
    ∧ (∀ (q : EmbeddingQueue) (x : Nat) (rest : List Nat),
        q.isProcessing = false → q.queue = x :: rest →
        q.processNext = (some x, ⟨rest, false⟩))
    ∧ (∀ l : List Nat, EmbeddingQueue.drain ⟨l, false⟩ = l)
    ∧ (∀ q : EmbeddingQueue, q.isProcessing = true ∨ q.queue = [] →
        q.processNext = (none, q)) := by
  refine ⟨fun q i => ⟨rfl, ?_⟩, fun q x rest hp hq => ?_, EmbeddingQueue.drain_queue,
    fun q h => ?_⟩
  · simp [EmbeddingQueue.add]
  · obtain ⟨l, p⟩ := q
    cases hp
    cases hq
    exact EmbeddingQueue.processNext_cons x rest
  · unfold EmbeddingQueue.processNext
    rw [if_pos]
    rcases h with h | h
    · exact Or.inl h
    · exact Or.inr h

/-- C8 witness: concrete pops, drains (with a duplicated id) and guards. -/
theorem embeddingQueue_fifo_witness :
    EmbeddingQueue.processNext ⟨[7, 7, 9], false⟩ = (some 7, ⟨[7, 9], false⟩)
    ∧ EmbeddingQueue.drain ⟨[4, 4, 5], false⟩ = [4, 4, 5]
    ∧ EmbeddingQueue.processNext ⟨[1], true⟩ = (none, ⟨[1], true⟩) :=
  ⟨embeddingQueue_fifo.2.1 ⟨[7, 7, 9], false⟩ 7 [7, 9] rfl rfl,
   embeddingQueue_fifo.2.2.1 [4, 4, 5],
   embeddingQueue_fifo.2.2.2 ⟨[1], true⟩ (Or.inl rfl)⟩

/-- C10: when the single-row upsert hits an existing row at the same
`(conversationId, sequence_number)` key, only `content` and `created_at` of
that row are overwritten; the stored row keeps its prior `role`, and the row
count does not change. -/
theorem insertMessageRow_conflict_keeps_role (m t : MessageRow) (table : List MessageRow)
    (ht : t ∈ table) (hkey : sameKey t m = true) :
    ({ t with content := m.content, created_at := m.created_at } : MessageRow)
        ∈ insertMessageRow m table
    ∧ (insertMessageRow m table).length = table.length
    ∧ ({ t with content := m.content, created_at := m.created_at } : MessageRow).role
        = t.role := by
  have hany : table.any (fun u => sameKey u m) = true :=
    List.any_eq_true.mpr ⟨t, ht, hkey⟩
  refine ⟨?_, ?_, rfl⟩
  · unfold insertMessageRow
    rw [if_pos hany]
    have himg :
        (fun u => if sameKey u m then
            ({ u with content := m.content, created_at := m.created_at } : MessageRow)
          else u) t
          = { t with content := m.content, created_at := m.created_at } := by
      simp only [hkey, if_true]
    exact himg ▸ List.mem_map_of_mem _ ht
  · unfold insertMessageRow
    rw [if_pos hany]
    exact List.length_map _ _

/-- C10 witness: a conflicting upsert whose incoming role differs keeps the
stored role. -/
theorem insertMessageRow_conflict_keeps_role_witness :
    ({ conversationId := 1, sequence_number := 0, role := "user", content := "new",
       created_at := 9 } : MessageRow)
      ∈ insertMessageRow ⟨1, 0, "assistant", "new", 9⟩ [⟨1, 0, "user", "old", 5⟩]
    ∧ (insertMessageRow ⟨1, 0, "assistant", "new", 9⟩ [⟨1, 0, "user", "old", 5⟩]).length = 1 :=
  ⟨(insertMessageRow_conflict_keeps_role ⟨1, 0, "assistant", "new", 9⟩
      ⟨1, 0, "user", "old", 5⟩ [⟨1, 0, "user", "old", 5⟩] (by decide) (by decide)).1,
   (insertMessageRow_conflict_keeps_role ⟨1, 0, "assistant", "new", 9⟩
      ⟨1, 0, "user", "old", 5⟩ [⟨1, 0, "user", "old", 5⟩] (by decide) (by decide)).2.1⟩

lemma upsertMessages_nil (table : List MessageRow) : upsertMessages [] table = table := rfl

lemma upsertMessages_cons (m : MessageRow) (rows table : List MessageRow) :
    upsertMessages (m :: rows) table = upsertMessages rows (insertMessageRow m table) := rfl

lemma insertMessageRow_of_no_conflict (m : MessageRow) (table : List MessageRow)
    (h : ∀ t ∈ table, sameKey t m = false) :
    insertMessageRow m table = table ++ [m] := by
  unfold insertMessageRow
  rw [if_neg]
  intro hcon
  obtain ⟨t, ht, hp⟩ := List.any_eq_true.mp hcon
  rw [h t ht] at hp
  exact Bool.false_ne_true hp

lemma messageData_conversationId (cid : Nat) (msgs : List PayloadMessage) :
    ∀ (k : Nat) (r : MessageRow), r ∈ messageData cid k msgs → r.conversationId = cid := by
  induction msgs with
  | nil => intro k r hr; simp [messageData] at hr
  | cons msg rest ih =>
    intro k r hr
    rw [messageData] at hr
    rcases List.mem_cons.mp hr with h | h
    · rw [h]
    · exact ih (k + 1) r h

lemma messageData_seq_bounds (cid : Nat) (msgs : List PayloadMessage) :
    ∀ (k : Nat) (r : MessageRow), r ∈ messageData cid k msgs →
      k ≤ r.sequence_number ∧ r.sequence_number < k + msgs.length := by
  induction msgs with
  | nil => intro k r hr; simp [messageData] at hr
  | cons msg rest ih =>
    intro k r hr
    rw [messageData] at hr
    rcases List.mem_cons.mp hr with h | h
    · rw [h]; simp
    · obtain ⟨h1, h2⟩ := ih (k + 1) r h
      constructor
      · omega
      · simpa [Nat.add_comm, Nat.add_left_comm] using h2

lemma messageData_map_seq (cid : Nat) (msgs : List PayloadMessage) :
    ∀ k : Nat, (messageData cid k msgs).map (fun r => r.sequence_number)
      = List.range' k msgs.length := by
  induction msgs with
  | nil => intro k; rfl
  | cons msg rest ih =>
    intro k
    rw [messageData, List.map_cons, ih (k + 1)]
    rfl

lemma upsertMessages_messageData_append (cid : Nat) (msgs : List PayloadMessage) :
    ∀ (k : Nat) (table : List MessageRow),
      (∀ t ∈ table, t.conversationId = cid → t.sequence_number < k) →
      upsertMessages (messageData cid k msgs) table = table ++ messageData cid k msgs := by
  induction msgs with
  | nil => intro k table _; simp [messageData, upsertMessages_nil]
  | cons msg rest ih =>
    intro k table h
    rw [messageData, upsertMessages_cons]
    have hfreshRow : ∀ t ∈ table,
        sameKey t ⟨cid, k, msg.role, msg.content, msg.timestamp⟩ = false := by
      intro t ht
      simp only [sameKey, Bool.and_eq_false_iff, beq_eq_false_iff_ne, ne_eq]
      by_cases hc : t.conversationId = cid
      · exact Or.inr (Nat.ne_of_lt (h t ht hc))
      · exact Or.inl hc
    rw [insertMessageRow_of_no_conflict _ _ hfreshRow]
    have hside : ∀ t ∈ table ++
        [({ conversationId := cid, sequence_number := k, role := msg.role,
            content := msg.content, created_at := msg.timestamp } : MessageRow)],
        t.conversationId = cid → t.sequence_number < k + 1 := by
      intro t ht hc
      rcases List.mem_append.mp ht with h1 | h1
      · exact Nat.lt_succ_of_lt (h t h1 hc)
      · rw [List.mem_singleton.mp h1]
        exact Nat.lt_succ_self k
    rw [ih (k + 1) _ hside, List.append_assoc]
    rfl

lemma insertMessageRow_key_surj (m : MessageRow) (table : List MessageRow) (t : MessageRow)
    (ht : t ∈ table) :
    ∃ u ∈ insertMessageRow m table, u.conversationId = t.conversationId ∧
      u.sequence_number = t.sequence_number := by
  unfold insertMessageRow
  by_cases hany : (table.any fun u => sameKey u m) = true
  · rw [if_pos hany]
    by_cases hk : sameKey t m = true
    · refine ⟨{ t with content := m.content, created_at := m.created_at },
        ?_, rfl, rfl⟩
      have himg :
          (fun u => if sameKey u m then
              ({ u with content := m.content, created_at := m.created_at } : MessageRow)
            else u) t
            = { t with content := m.content, created_at := m.created_at } := by
        simp only [hk, if_true]
      exact himg ▸ List.mem_map_of_mem _ ht
    · refine ⟨t, ?_, rfl, rfl⟩
      have himg :
          (fun u => if sameKey u m then
              ({ u with content := m.content, created_at := m.created_at } : MessageRow)
            else u) t = t := by
        simp only [hk, if_false, Bool.false_eq_true, ite_false]
      exact himg ▸ List.mem_map_of_mem _ ht
  · rw [if_neg hany]
    exact ⟨t, List.mem_append_left _ ht, rfl, rfl⟩

lemma upsertMessages_key_surj (rows : List MessageRow) :
    ∀ (table : List MessageRow) (t : MessageRow), t ∈ table →
      ∃ u ∈ upsertMessages rows table, u.conversationId = t.conversationId ∧
        u.sequence_number = t.sequence_number := by
  induction rows with
  | nil => intro table t ht; exact ⟨t, ht, rfl, rfl⟩
  | cons r rest ih =>
    intro table t ht
    rw [upsertMessages_cons]
    obtain ⟨u1, hu1, e1, e2⟩ := insertMessageRow_key_surj r table t ht
    obtain ⟨u2, hu2, f1, f2⟩ := ih (insertMessageRow r table) u1 hu1
    exact ⟨u2, hu2, f1.trans e1, f2.trans e2⟩

lemma insertMessageRow_mem_of_key_ne (m : MessageRow) (table : List MessageRow)
    (t : MessageRow) (ht : t ∈ table) (hk : sameKey t m = false) :
    t ∈ insertMessageRow m table := by
  unfold insertMessageRow
  by_cases hany : (table.any fun u => sameKey u m) = true
  · rw [if_pos hany]
    have himg :
        (fun u => if sameKey u m then
            ({ u with content := m.content, created_at := m.created_at } : MessageRow)
          else u) t = t := by
      simp only [hk, Bool.false_eq_true, ite_false]
    exact himg ▸ List.mem_map_of_mem _ ht
  · rw [if_neg hany]
    exact List.mem_append_left _ ht

lemma upsertMessages_mem_of_key_ne (rows : List MessageRow) :
    ∀ (table : List MessageRow) (t : MessageRow), t ∈ table →
      (∀ r ∈ rows, sameKey t r = false) → t ∈ upsertMessages rows table := by
  induction rows with
  | nil => intro table t ht _; exact ht
  | cons r rest ih =>
    intro table t ht h
    rw [upsertMessages_cons]
    exact ih (insertMessageRow r table) t
      (insertMessageRow_mem_of_key_ne r table t ht (h r (List.mem_cons_self r rest)))
      (fun r2 hr2 => h r2 (List.mem_cons_of_mem r hr2))

lemma upsertOne_create (now : Int) (s : Store) (p : ConversationPayload)
    (hnone : findByClaudeId p.id s.conversations = none) :
    upsertOne now s p =
      ({ s with
          conversations := s.conversations ++
            [{ id := s.nextId, claudeConversationId := p.id, title := p.title,
               created_at := p.created_at, updated_at := now,
               messageCount := p.messages.length }]
          messagesTable := upsertMessages (messageData s.nextId 0 p.messages) s.messagesTable
          embeddingQueue := s.embeddingQueue.add s.nextId
          nextId := s.nextId + 1 },
       { processed := 1, created := 1, updated := 0 }) := by
  unfold upsertOne
  rw [hnone]

lemma upsertOne_update (now : Int) (s : Store) (p : ConversationPayload)
    (c : ConversationRow)
    (hfind : findByClaudeId p.id s.conversations = some c)
    (hne : p.messages.length ≠ c.messageCount) :
    upsertOne now s p =
      ({ s with
          conversations := updateConversation c.id p.title p.messages.length now
            s.conversations
          messagesTable := upsertMessages (messageData c.id 0 p.messages) s.messagesTable
          embeddingQueue := s.embeddingQueue.add c.id },
       { processed := 1, created := 0, updated := 1 }) := by
  unfold upsertOne
  rw [hfind]
  simp only [if_neg hne]

/-- C3 counterexample: ingest `c1` with two messages, then re-ingest it with
one message.  The re-ingest takes the update path (1 ≠ 2), upserts only
sequence number 0 and deletes nothing, so the stored sequence numbers are
`[0, 1]`, not exactly `0..N-1 = [0]` for the ingested array length N = 1. -/
theorem upsert_shrink_sequence_counterexample :
    (((upsertConversations 0 (upsertConversations 0 emptyStore [payloadC1v2]).1
        [payloadC1v1]).1.messagesTable.filter
          (fun m => m.conversationId == 0)).map (fun m => m.sequence_number)) = [0, 1]
    ∧ payloadC1v1.messages.length = 1
    ∧ [0, 1] ≠ List.range 1 := by
  refine ⟨by rfl, rfl, by decide⟩

/-- C3 amended: for every conversation *created* by `upsertConversations`
(first ingest of its external ID, fresh internal id) with a message array of
length N, the stored rows for it are exactly the input rows in order: their
sequence numbers are exactly `0..N-1`, without gaps or duplicates, and the
row at position i carries the i-th input message's role, content and
timestamp.  (Update re-ingests upsert rows `0..N-1` in place and never
delete higher-sequence rows left by an earlier, longer ingest.) -/
theorem upsert_create_sequence_exact (now : Int) (s : Store) (p : ConversationPayload)
    (hnone : findByClaudeId p.id s.conversations = none)
    (hnomsg : ∀ m ∈ s.messagesTable, m.conversationId ≠ s.nextId) :
    ((upsertOne now s p).1.messagesTable.filter (fun m => m.conversationId == s.nextId))
      = messageData s.nextId 0 p.messages
    ∧ (((upsertOne now s p).1.messagesTable.filter
        (fun m => m.conversationId == s.nextId)).map (fun m => m.sequence_number))
      = List.range p.messages.length
    ∧ (((upsertOne now s p).1.messagesTable.filter
        (fun m => m.conversationId == s.nextId)).map (fun m => m.sequence_number)).Nodup := by
  have happend : upsertMessages (messageData s.nextId 0 p.messages) s.messagesTable
      = s.messagesTable ++ messageData s.nextId 0 p.messages := by
    refine upsertMessages_messageData_append s.nextId p.messages 0 s.messagesTable ?_
    intro t ht hc
    exact absurd hc (hnomsg t ht)
  have hfilter :
      ((upsertOne now s p).1.messagesTable.filter (fun m => m.conversationId == s.nextId))
        = messageData s.nextId 0 p.messages := by
    rw [upsertOne_create now s p hnone]
    show ((upsertMessages (messageData s.nextId 0 p.messages) s.messagesTable).filter
      (fun m => m.conversationId == s.nextId)) = _
    rw [happend, List.filter_append]
    have h1 : s.messagesTable.filter (fun m => m.conversationId == s.nextId) = [] := by
      rw [List.filter_eq_nil_iff]
      intro t ht
      simp only [beq_iff_eq]
      exact hnomsg t ht
    have h2 : (messageData s.nextId 0 p.messages).filter
        (fun m => m.conversationId == s.nextId) = messageData s.nextId 0 p.messages := by
      rw [List.filter_eq_self]
      intro t ht
      simp only [beq_iff_eq]
      exact messageData_conversationId s.nextId p.messages 0 t ht
    rw [h1, h2, List.nil_append]
  refine ⟨hfilter, ?_, ?_⟩
  · rw [hfilter, messageData_map_seq s.nextId p.messages 0, List.range_eq_range']
  · rw [hfilter, messageData_map_seq s.nextId p.messages 0]
    exact List.nodup_range' 0 p.messages.length

/-- C3 amended witness: creating `c1` with two messages stores exactly
sequence numbers `[0, 1]` carrying the two input messages in order. -/
theorem upsert_create_sequence_exact_witness :
    ((upsertOne 0 emptyStore payloadC1v2).1.messagesTable.filter
        (fun m => m.conversationId == emptyStore.nextId))
      = messageData emptyStore.nextId 0 payloadC1v2.messages
    ∧ (((upsertOne 0 emptyStore payloadC1v2).1.messagesTable.filter
        (fun m => m.conversationId == emptyStore.nextId)).map (fun m => m.sequence_number))
      = List.range payloadC1v2.messages.length :=
  ⟨(upsert_create_sequence_exact 0 emptyStore payloadC1v2 (by rfl)
      (by intro m hm; simp [emptyStore] at hm)).1,
   (upsert_create_sequence_exact 0 emptyStore payloadC1v2 (by rfl)
      (by intro m hm; simp [emptyStore] at hm)).2.1⟩

/-- C9: `upsertMessages` only inserts or overwrites at the targeted
`(conversationId, sequence_number)` keys and never deletes: every stored key
survives an update re-ingest; every stored row whose sequence number is
beyond the new payload's length survives *unchanged*; and the conversation's
cached `messageCount` is set to the new payload length. -/
theorem upsert_update_frame (now : Int) (s : Store) (p : ConversationPayload)
    (c : ConversationRow)
    (hfind : findByClaudeId p.id s.conversations = some c)
    (hne : p.messages.length ≠ c.messageCount) :
    (∀ m ∈ s.messagesTable, ∃ u ∈ (upsertOne now s p).1.messagesTable,
        u.conversationId = m.conversationId ∧ u.sequence_number = m.sequence_number)
    ∧ (∀ m ∈ s.messagesTable, p.messages.length ≤ m.sequence_number →
        m ∈ (upsertOne now s p).1.messagesTable)
    ∧ (∀ c2 ∈ (upsertOne now s p).1.conversations, c2.id = c.id →
        c2.messageCount = p.messages.length) := by
  rw [upsertOne_update now s p c hfind hne]
  refine ⟨?_, ?_, ?_⟩
  · intro m hm
    exact upsertMessages_key_surj (messageData c.id 0 p.messages) s.messagesTable m hm
  · intro m hm hseq
    refine upsertMessages_mem_of_key_ne (messageData c.id 0 p.messages) s.messagesTable m hm ?_
    intro r hr
    have hbound := messageData_seq_bounds c.id p.messages 0 r hr
    simp only [sameKey, Bool.and_eq_false_iff, beq_eq_false_iff_ne, ne_eq]
    refine Or.inr ?_
    omega
  · intro c2 hc2 hid
    obtain ⟨x, hx, hfx⟩ := List.mem_map.mp hc2
    by_cases hxid : (x.id == c.id) = true
    · rw [if_pos hxid] at hfx
      rw [← hfx]
    · rw [if_neg hxid] at hfx
      rw [← hfx] at hid
      simp only [beq_iff_eq] at hxid
      exact absurd hid hxid

/-- C9 witness: re-ingesting `c1` with one message keeps the old row at
sequence number 1 unchanged and caches `messageCount = 1`. -/
theorem upsert_update_frame_witness :
    (⟨0, 1, "assistant", "hello", 1⟩ : MessageRow)
      ∈ (upsertOne 7 exStoreC1Ingested payloadC1v1).1.messagesTable
    ∧ (⟨0, "c1", "T", 0, 7, 1⟩ : ConversationRow).messageCount
        = payloadC1v1.messages.length :=
  ⟨(upsert_update_frame 7 exStoreC1Ingested payloadC1v1 ⟨0, "c1", "T", 0, 0, 2⟩
      (by rfl) (by decide)).2.1 ⟨0, 1, "assistant", "hello", 1⟩ (by decide) (by decide),
   (upsert_update_frame 7 exStoreC1Ingested payloadC1v1 ⟨0, "c1", "T", 0, 0, 2⟩
      (by rfl) (by decide)).2.2 ⟨0, "c1", "T", 0, 7, 1⟩ (by decide) rfl⟩

lemma findByClaudeId_eq_none_iff (cid : String) (table : List ConversationRow) :
    findByClaudeId cid table = none ↔ ∀ c ∈ table, c.claudeConversationId ≠ cid := by
  simp [findByClaudeId, List.find?_eq_none]

lemma upsertOne_noop (now : Int) (s : Store) (p : ConversationPayload)
    (c : ConversationRow)
    (hfind : findByClaudeId p.id s.conversations = some c)
    (hcount : p.messages.length = c.messageCount) :
    upsertOne now s p = (s, { processed := 0, created := 0, updated := 0 }) := by
  unfold upsertOne
  rw [hfind]
  simp only [if_pos hcount]

lemma upsertConversations_singleton (now : Int) (s : Store) (p : ConversationPayload) :
    upsertConversations now s [p] = upsertOne now s p := by
  unfold upsertConversations
  simp only [List.foldl_cons, List.foldl_nil, Nat.zero_add]

/-- C2: re-submitting a conversation payload whose external ID is already
stored with an equal cached `messageCount` is a complete no-op — the store
(conversations, messages, embeddings, queue) is untouched and every counter
stays 0; in particular re-ingesting an identical single-payload batch right
after its first ingest returns `{processed := 0, created := 0, updated := 0}`
and leaves the post-ingest store unchanged. -/
theorem upsert_noop_on_unchanged_count (now now2 : Int) :
    (∀ (s : Store) (p : ConversationPayload) (c : ConversationRow),
        findByClaudeId p.id s.conversations = some c →
        p.messages.length = c.messageCount →
        upsertOne now s p = (s, { processed := 0, created := 0, updated := 0 }))
    ∧ (∀ (s : Store) (p : ConversationPayload),
        (∀ c ∈ s.conversations, c.claudeConversationId ≠ p.id) →
        upsertConversations now2 (upsertConversations now s [p]).1 [p]
          = ((upsertConversations now s [p]).1,
             { processed := 0, created := 0, updated := 0 })) := by
  refine ⟨fun s p c hfind hcount => upsertOne_noop now s p c hfind hcount, ?_⟩
  intro s p hfresh
  have hnone : findByClaudeId p.id s.conversations = none :=
    (findByClaudeId_eq_none_iff p.id s.conversations).mpr hfresh
  rw [upsertConversations_singleton now s p, upsertOne_create now s p hnone,
    upsertConversations_singleton now2]
  refine upsertOne_noop now2 _ p
    { id := s.nextId, claudeConversationId := p.id, title := p.title,
      created_at := p.created_at, updated_at := now,
      messageCount := p.messages.length } ?_ rfl
  show findByClaudeId p.id (s.conversations ++ [_]) = _
  rw [findByClaudeId, List.find?_append]
  have h1 : s.conversations.find? (fun c => c.claudeConversationId == p.id) = none := by
    rw [List.find?_eq_none]
    intro c hc
    simp only [beq_iff_eq]
    exact hfresh c hc
  rw [h1, Option.none_or]
  simp [List.find?]

/-- C2 witness: ingesting `c1` into the empty store and re-ingesting the
identical payload returns all-zero metrics and the unchanged store. -/
theorem upsert_noop_on_unchanged_count_witness :
    upsertOne 3 exStoreC1Ingested payloadC1v2
      = (exStoreC1Ingested, { processed := 0, created := 0, updated := 0 })
    ∧ upsertConversations 1 (upsertConversations 0 emptyStore [payloadC1v2]).1 [payloadC1v2]
      = ((upsertConversations 0 emptyStore [payloadC1v2]).1,
         { processed := 0, created := 0, updated := 0 }) :=
  ⟨(upsert_noop_on_unchanged_count 3 1).1 exStoreC1Ingested payloadC1v2
      ⟨0, "c1", "T", 0, 0, 2⟩ (by rfl) (by decide),
   (upsert_noop_on_unchanged_count 0 1).2 emptyStore payloadC1v2
      (by intro c hc; simp [emptyStore] at hc)⟩

/-- C5: the date-range query with neither bound raises an error (the
repository throws, and its catch block surfaces the failure as a
`DatabaseError` — the spec's `InvalidRangeError`), rather than returning an
empty or unfiltered result; with at least one bound supplied, both bounds
act as inclusive filters on the conversation creation timestamp. -/
theorem dateRange_requires_bound (s : Store) (fromDate toDate : Option Int) :
    getConversationsByDateRange none none s
      = .error (.databaseError "Failed to find conversations by date")
    ∧ (fromDate.isSome ∨ toDate.isSome →
        ∃ convs, findByDateRange fromDate toDate s.conversations = .ok convs ∧
          ∀ c, c ∈ convs ↔ c ∈ s.conversations ∧
            (∀ f, fromDate = some f → f ≤ c.created_at) ∧
            (∀ t, toDate = some t → c.created_at ≤ t)) := by
  constructor
  · rfl
  · intro hsome
    rcases fromDate with _ | f <;> rcases toDate with _ | t
    · simp at hsome
    · refine ⟨_, rfl, fun c => ?_⟩
      rw [List.mem_filter]
      simp
    · refine ⟨_, rfl, fun c => ?_⟩
      rw [List.mem_filter]
      simp
    · refine ⟨_, rfl, fun c => ?_⟩
      rw [List.mem_filter]
      simp

/-- C5 witness: neither bound errors; `from = to = 1` on conversations
created at 1 and 5 keeps exactly the one created at 1 (inclusive bounds). -/
theorem dateRange_requires_bound_witness :
    getConversationsByDateRange none none exStoreDates
      = .error (.databaseError "Failed to find conversations by date")
    ∧ ∃ convs, findByDateRange (some 1) (some 1) exStoreDates.conversations = .ok convs ∧
        ∀ c, c ∈ convs ↔ c ∈ exStoreDates.conversations ∧
          (∀ f, (some (1 : Int)) = some f → f ≤ c.created_at) ∧
          (∀ t, (some (1 : Int)) = some t → c.created_at ≤ t) :=
  ⟨(dateRange_requires_bound exStoreDates none none).1,
   (dateRange_requires_bound exStoreDates (some 1) (some 1)).2 (Or.inl rfl)⟩

/-- C6: the nearest-neighbor lookup errors when the embeddings table is
empty (the repository's thrown error surfaces through its catch block as a
`DatabaseError` — the spec's `EmptyIndexError`); with at least one embedding
row present it returns a non-empty ranked result. -/
theorem compareEmbeddings_empty_vs_nonempty (dist : List Int → Int)
    (table : List EmbeddingRow) :
    (table = [] → compareEmbeddings dist table
        = .error (.databaseError "Failed to compare embeddings"))
    ∧ (table ≠ [] → ∃ res, compareEmbeddings dist table = .ok res ∧ res ≠ []) := by
  constructor
  · intro h
    subst h
    rfl
  · intro h
    have hpos : 0 <
        ((table.insertionSort (fun a b => dist a.embedding ≤ dist b.embedding)).take 5).length := by
      rw [List.length_take, List.length_insertionSort]
      have h1 : 0 < table.length := List.length_pos.mpr h
      exact lt_min (by norm_num) h1
    unfold compareEmbeddings
    rw [if_neg (Nat.pos_iff_ne_zero.mp hpos)]
    refine ⟨_, rfl, ?_⟩
    intro hnil
    rw [hnil] at hpos
    exact absurd hpos (by simp)

/-- C6 witness: the empty table errors; a one-row table returns a non-empty
result. -/
theorem compareEmbeddings_empty_vs_nonempty_witness :
    compareEmbeddings exDist ([] : List EmbeddingRow)
      = .error (.databaseError "Failed to compare embeddings")
    ∧ ∃ res, compareEmbeddings exDist [⟨1, [2], 0⟩] = .ok res ∧ res ≠ [] :=
  ⟨(compareEmbeddings_empty_vs_nonempty exDist []).1 rfl,
   (compareEmbeddings_empty_vs_nonempty exDist [⟨1, [2], 0⟩]).2 (by decide)⟩

lemma length_filter_map_eq {α β : Type} (f : α → β) (p : β → Bool) (l : List α) :
    (l.filter (fun a => p (f a))).length = ((l.map f).filter p).length := by
  induction l with
  | nil => rfl
  | cons a l ih =>
    rw [List.map_cons, List.filter_cons, List.filter_cons]
    by_cases h : p (f a) = true
    · simp only [h, if_true, List.length_cons, ih]
    · simp only [h, Bool.false_eq_true, if_false, ih]

lemma length_filter_contains_le (rows ids : List Nat) (hrows : rows.Nodup) :
    (rows.filter (fun i => ids.contains i)).length ≤ ids.length := by
  have hnd : (rows.filter (fun i => ids.contains i)).Nodup := hrows.filter _
  have hsubs : (rows.filter (fun i => ids.contains i)).toFinset ⊆ ids.toFinset := by
    intro a ha
    rw [List.mem_toFinset] at ha
    rw [List.mem_toFinset]
    have h2 := (List.mem_filter.mp ha).2
    simpa using h2
  calc (rows.filter (fun i => ids.contains i)).length
      = (rows.filter (fun i => ids.contains i)).toFinset.card :=
        (List.toFinset_card_of_nodup hnd).symm
    _ ≤ ids.toFinset.card := Finset.card_le_card hsubs
    _ ≤ ids.length := List.toFinset_card_le ids

lemma length_filter_contains_eq (rows ids : List Nat) (hrows : rows.Nodup)
    (hids : ids.Nodup) (hsub : ∀ i ∈ ids, i ∈ rows) :
    (rows.filter (fun i => ids.contains i)).length = ids.length := by
  have hnd : (rows.filter (fun i => ids.contains i)).Nodup := hrows.filter _
  have hset : (rows.filter (fun i => ids.contains i)).toFinset = ids.toFinset := by
    ext a
    rw [List.mem_toFinset, List.mem_toFinset, List.mem_filter]
    constructor
    · rintro ⟨-, h2⟩
      simpa using h2
    · intro ha
      exact ⟨hsub a ha, by simpa using ha⟩
  rw [← List.toFinset_card_of_nodup hnd, hset, List.toFinset_card_of_nodup hids]

lemma compareEmbeddings_ok_of_ne_nil (dist : List Int → Int) (table : List EmbeddingRow)
    (h : table ≠ []) :
    compareEmbeddings dist table
      = .ok ((table.insertionSort (fun a b => dist a.embedding ≤ dist b.embedding)).take 5) := by
  have hpos : 0 <
      ((table.insertionSort (fun a b => dist a.embedding ≤ dist b.embedding)).take 5).length := by
    rw [List.length_take, List.length_insertionSort]
    exact lt_min (by norm_num) (List.length_pos.mpr h)
  unfold compareEmbeddings
  rw [if_neg (Nat.pos_iff_ne_zero.mp hpos)]

lemma searchConversations_eq_ok (dist : List Int → Int) (s : Store) (r : List EmbeddingRow)
    (h : compareEmbeddings dist s.embeddings = .ok r) :
    searchConversations dist s = .ok (hydrate
      (findByIds (r.map (fun e => e.conversationId)) s.conversations)
      (findByConversationIds (r.map (fun e => e.conversationId)) s.messagesTable)) := by
  unfold searchConversations
  rw [h]
  rfl

lemma searchConversations_eq_error (dist : List Int → Int) (s : Store) (e : CoreError)
    (h : compareEmbeddings dist s.embeddings = .error e) :
    searchConversations dist s = .error e := by
  unfold searchConversations
  rw [h]
  rfl

lemma compareEmbeddings_ok_inv (dist : List Int → Int) (table r : List EmbeddingRow)
    (h : compareEmbeddings dist table = .ok r) :
    r = (table.insertionSort (fun a b => dist a.embedding ≤ dist b.embedding)).take 5 := by
  unfold compareEmbeddings at h
  by_cases hc :
      ((table.insertionSort (fun a b => dist a.embedding ≤ dist b.embedding)).take 5).length = 0
  · rw [if_pos hc] at h
    exact absurd h (by simp)
  · rw [if_neg hc] at h
    exact (Except.ok.inj h).symm

/-- C7: for every query and store, `searchConversations` returns at most 5
conversations (the lookup takes a fixed `LIMIT 5`), and with at least 7
embedding rows present it returns exactly 5.  The hypotheses embed the
schema's constraints: conversation ids are unique, embedding conversation
ids are unique, and each embedding references an existing conversation. -/
theorem search_returns_at_most_five (dist : List Int → Int) (s : Store)
    (hconv : (s.conversations.map (fun c => c.id)).Nodup)
    (hemb : (s.embeddings.map (fun e => e.conversationId)).Nodup)
    (hwf : ∀ e ∈ s.embeddings, e.conversationId ∈ s.conversations.map (fun c => c.id)) :
    (∀ res, searchConversations dist s = .ok res → res.length ≤ 5)
    ∧ (7 ≤ s.embeddings.length →
        ∃ res, searchConversations dist s = .ok res ∧ res.length = 5) := by
  constructor
  · intro res hres
    cases hcmp : compareEmbeddings dist s.embeddings with
    | error e =>
      rw [searchConversations_eq_error dist s e hcmp] at hres
      exact absurd hres (by simp)
    | ok r =>
      rw [searchConversations_eq_ok dist s r hcmp] at hres
      have hres2 := Except.ok.inj hres
      have hlen : res.length = (findByIds (r.map (fun e => e.conversationId))
          s.conversations).length := by
        rw [← hres2]
        exact List.length_map _ _
      rw [hlen]
      show ((s.conversations.filter
        (fun c => (r.map (fun e => e.conversationId)).contains c.id)).length ≤ 5)
      rw [length_filter_map_eq (fun c => c.id)
        (fun i => (r.map (fun e => e.conversationId)).contains i) s.conversations]
      refine le_trans (length_filter_contains_le _ _ hconv) ?_
      rw [List.length_map, compareEmbeddings_ok_inv dist s.embeddings r hcmp]
      exact List.length_take_le 5 _
  · intro hlen7
    have hne : s.embeddings ≠ [] := by
      intro h0
      rw [h0] at hlen7
      exact absurd hlen7 (by norm_num)
    have hcmp := compareEmbeddings_ok_of_ne_nil dist s.embeddings hne
    rw [searchConversations_eq_ok dist s _ hcmp]
    refine ⟨_, rfl, ?_⟩
    have hperm : List.Perm
        ((s.embeddings.insertionSort
          (fun a b => dist a.embedding ≤ dist b.embedding)).map (fun e => e.conversationId))
        (s.embeddings.map (fun e => e.conversationId)) :=
      (List.perm_insertionSort _ s.embeddings).map _
    have hsortNodup : ((s.embeddings.insertionSort
        (fun a b => dist a.embedding ≤ dist b.embedding)).map
          (fun e => e.conversationId)).Nodup :=
      hperm.symm.nodup hemb
    have hidsEq : ((s.embeddings.insertionSort
          (fun a b => dist a.embedding ≤ dist b.embedding)).take 5).map
            (fun e => e.conversationId)
        = ((s.embeddings.insertionSort
          (fun a b => dist a.embedding ≤ dist b.embedding)).map
            (fun e => e.conversationId)).take 5 := List.map_take ..
    have hidsNodup : (((s.embeddings.insertionSort
        (fun a b => dist a.embedding ≤ dist b.embedding)).take 5).map
          (fun e => e.conversationId)).Nodup := by
      rw [hidsEq]
      exact (List.take_sublist 5 _).nodup hsortNodup
    have hidsLen : (((s.embeddings.insertionSort
        (fun a b => dist a.embedding ≤ dist b.embedding)).take 5).map
          (fun e => e.conversationId)).length = 5 := by
      rw [hidsEq, List.length_take, List.length_map, List.length_insertionSort]
      exact Nat.min_eq_left (by omega)
    have hsub : ∀ i ∈ ((s.embeddings.insertionSort
        (fun a b => dist a.embedding ≤ dist b.embedding)).take 5).map
          (fun e => e.conversationId), i ∈ s.conversations.map (fun c => c.id) := by
      intro i hi
      obtain ⟨e, he, hei⟩ := List.mem_map.mp hi
      have he2 : e ∈ s.embeddings.insertionSort
          (fun a b => dist a.embedding ≤ dist b.embedding) :=
        (List.take_sublist 5 _).mem he
      have he3 : e ∈ s.embeddings := (List.perm_insertionSort _ s.embeddings).mem_iff.mp he2
      exact hei ▸ hwf e he3
    show (hydrate (findByIds _ s.conversations) _).length = 5
    rw [hydrate, List.length_map]
    show (s.conversations.filter (fun c => (_ : List Nat).contains c.id)).length = 5
    rw [length_filter_map_eq (fun c => c.id) _ s.conversations]
    rw [length_filter_contains_eq _ _ hconv hidsNodup hsub, hidsLen]

/-- C7 witness: with seven embeddings present, search returns exactly 5
results; the general bound is instantiated on the same store. -/
theorem search_returns_at_most_five_witness :
    (∃ res, searchConversations exDist exStoreSeven = .ok res ∧ res.length = 5)
    ∧ ∀ res, searchConversations exDist exStoreSeven = .ok res → res.length ≤ 5 :=
  ⟨(search_returns_at_most_five exDist exStoreSeven (by decide) (by decide)
      (by decide)).2 (by norm_num [exStoreSeven]),
   (search_returns_at_most_five exDist exStoreSeven (by decide) (by decide)
      (by decide)).1⟩

lemma upsertEmbedding_mem (cid : Nat) (vec : List Int) (now : Int)
    (table : List EmbeddingRow) :
    ∃ e ∈ upsertEmbedding cid vec now table, e.conversationId = cid ∧ e.embedding = vec := by
  unfold upsertEmbedding
  by_cases hany : (table.any fun e => e.conversationId == cid) = true
  · rw [if_pos hany]
    obtain ⟨t, ht, hp⟩ := List.any_eq_true.mp hany
    refine ⟨{ t with embedding := vec, created_at := now }, ?_, ?_, rfl⟩
    · have himg : (fun e => if e.conversationId == cid then
          ({ e with embedding := vec, created_at := now } : EmbeddingRow) else e) t
          = { t with embedding := vec, created_at := now } := by
        simp only [hp, if_true]
      exact himg ▸ List.mem_map_of_mem _ ht
    · simpa using hp
  · rw [if_neg hany]
    exact ⟨_, List.mem_append_right _ (List.mem_singleton_self _), rfl, rfl⟩

/-- C4: the embedding worker is a silent no-op when the queue yields no
conversation id; when the claimed conversation has zero stored messages it
raises an error (the spec's `EmptyConversationError`) instead of skipping;
otherwise it finishes without error and upserts into the vector store an
embedding of the concatenated messages for that conversation. -/
theorem processNext_worker (embed : String → List Int) (now : Int) (s : Store) :
    (s.embeddingQueue.isProcessing = true ∨ s.embeddingQueue.queue = [] →
        processNextConversation embed now s = (s, none))
    ∧ (∀ cid rest, s.embeddingQueue.isProcessing = false →
        s.embeddingQueue.queue = cid :: rest →
        (findByConversationId cid s.messagesTable = [] →
          (processNextConversation embed now s).2
            = some (.runtimeError ("No messages found for conversation ID: " ++ toString cid)))
        ∧ (findByConversationId cid s.messagesTable ≠ [] →
          (processNextConversation embed now s).2 = none ∧
          ∃ e ∈ (processNextConversation embed now s).1.embeddings,
            e.conversationId = cid ∧
            e.embedding = embed (combinedText (findByConversationId cid s.messagesTable)))) := by
  constructor
  · intro h
    unfold processNextConversation EmbeddingQueue.processNext
    rw [if_pos h]
  · intro cid rest hp hq
    have hqeq : s.embeddingQueue = ⟨cid :: rest, false⟩ := by
      rw [← hq, ← hp]
    have hpn : EmbeddingQueue.processNext s.embeddingQueue = (some cid, ⟨rest, false⟩) := by
      rw [hqeq]
      exact EmbeddingQueue.processNext_cons cid rest
    constructor
    · intro hmsgs
      unfold processNextConversation
      rw [hpn]
      simp [hmsgs]
    · intro hmsgs
      have hlen : ¬ (findByConversationId cid s.messagesTable).length = 0 := by
        simpa [List.length_eq_zero] using hmsgs
      unfold processNextConversation
      rw [hpn]
      simp only [hlen, if_false]
      refine ⟨trivial, ?_⟩
      exact upsertEmbedding_mem cid _ now _

/-- C4 witness: a queued conversation with no stored messages raises the
error; a queued conversation with one message completes and stores its
embedding; an empty queue is a silent no-op. -/
theorem processNext_worker_witness :
    (processNextConversation (fun _ => [4]) 0 exStoreWorkerEmptyConv).2
      = some (.runtimeError ("No messages found for conversation ID: " ++ toString 5))
    ∧ (processNextConversation (fun _ => [4]) 0 exStoreWorker).2 = none
    ∧ processNextConversation (fun _ => [4]) 0 exStoreSearch = (exStoreSearch, none) :=
  ⟨((processNext_worker (fun _ => [4]) 0 exStoreWorkerEmptyConv).2 5 [] rfl rfl).1 rfl,
   (((processNext_worker (fun _ => [4]) 0 exStoreWorker).2 0 [] rfl rfl).2 (by decide)).1,
   (processNext_worker (fun _ => [4]) 0 exStoreSearch).1 (Or.inr rfl)⟩

/-- C1 (refuted): for the store `exStoreSearch` the vector store ranks
conversation 2 strictly before conversation 1 (distances 3 < 5), yet
`searchConversations` returns them as `[1, 2]` — the order in which
`findByIds` returned the metadata rows (table order), not the ranking
order.  Hydration maps over the metadata fetch result instead of the ranked
id list, so the ranking is not preserved. -/
theorem search_order_not_preserved :
    (compareEmbeddings exDist exStoreSearch.embeddings).map
      (fun l => l.map (fun e => e.conversationId)) = .ok [2, 1]
    ∧ (searchConversations exDist exStoreSearch).map
      (fun l => l.map (fun r => r.id)) = .ok [1, 2]
    ∧ ([1, 2] : List Nat) ≠ [2, 1] :=
  ⟨by rfl, by rfl, by decide⟩

end Jarvis
